import Mathlib

/-!
Verification development for the tick-data pipeline
(DataCleaner.py / DataInterface.py of the sw-challenge-fall-2024 repo).

The Python code is shallowly embedded: rows are string triples, Python
floats are modelled as rationals, Python datetimes as integer microsecond
counts since the Unix epoch, and the library calls `float`, `int` and
`datetime.strptime` are modelled by executable parsers covering the
decimal/timestamp syntax the pipeline feeds them (no exponents, infinities
or unicode digits).  `while` loops are given explicit fuel; `none` from a
fuelled loop means the loop did not complete normally.
-/

/-! ### Character and digit utilities (models of Python string parsing) -/

/-- Maximal leading run of ASCII digits of a character list, with the rest. -/
def takeDigits : List Char → List Char × List Char
  | [] => ([], [])
  | c :: cs =>
    if c.isDigit then
      let p := takeDigits cs
      (c :: p.1, p.2)
    else ([], c :: cs)

/-- Decimal value of a digit list. -/
def digitsToNat (ds : List Char) : Nat :=
  ds.foldl (fun a c => 10 * a + (c.toNat - 48)) 0

/-- Models Python `int(s)` on the strings this pipeline feeds it:
an optional sign followed by a nonempty digit run. -/
def parseInt? (s : String) : Option Int :=
  let digitsOnly : List Char → Option Nat := fun cs =>
    match takeDigits cs with
    | ([], _) => none
    | (ds, []) => some (digitsToNat ds)
    | (_, _ :: _) => none
  match s.data with
  | '-' :: cs => (digitsOnly cs).map (fun n => -(n : Int))
  | '+' :: cs => (digitsOnly cs).map (fun n => (n : Int))
  | cs => (digitsOnly cs).map (fun n => (n : Int))

/-- Models Python `float(s)` on the strings this pipeline feeds it:
an optional sign, then digits with an optional decimal point
(at least one digit overall).  Values are exact rationals. -/
def parseFloat? (s : String) : Option ℚ :=
  let core : List Char → Option ℚ := fun cs =>
    match takeDigits cs with
    | (ds, '.' :: rest) =>
      match takeDigits rest with
      | (fs, []) =>
        if ds = [] ∧ fs = [] then none
        else some ((digitsToNat ds : ℚ) + (digitsToNat fs : ℚ) / (10 ^ fs.length : ℚ))
      | (_, _ :: _) => none
    | (ds, []) => if ds = [] then none else some (digitsToNat ds : ℚ)
    | (_, _ :: _) => none
  match s.data with
  | '-' :: cs => (core cs).map (fun q => -q)
  | '+' :: cs => core cs
  | cs => core cs

/-! ### Timestamps (model of `datetime.strptime(ts, "%Y-%m-%d %H:%M:%S.%f")`) -/

/-- A parsed wall-clock timestamp, as produced by `strptime`. -/
structure PTimestamp where
  year : Nat
  month : Nat
  day : Nat
  hour : Nat
  minute : Nat
  second : Nat
  usec : Nat
deriving DecidableEq, Repr

/-- Microseconds since local midnight (`datetime.time` ordering key). -/
def todUs (t : PTimestamp) : Nat :=
  ((t.hour * 60 + t.minute) * 60 + t.second) * 1000000 + t.usec

/-- 09:30:00 in microseconds of the day. -/
def tradingOpenUs : Nat := 34200000000

/-- 16:00:00 in microseconds of the day. -/
def tradingCloseUs : Nat := 57600000000

/-- Gregorian leap-year rule (as used by Python `datetime`). -/
def isLeapYear (y : Nat) : Bool := y % 4 = 0 && (y % 100 ≠ 0 || y % 400 = 0)

/-- Length of a month, for `datetime`'s calendar validation. -/
def daysInMonth (y m : Nat) : Nat :=
  if m = 2 then (if isLeapYear y then 29 else 28)
  else if m = 4 ∨ m = 6 ∨ m = 9 ∨ m = 11 then 30
  else 31

/-- Days from 1970-01-01 to the given civil date (days-from-civil algorithm). -/
def daysFromCivil (y m d : Nat) : Int :=
  let yy := if m ≤ 2 then y - 1 else y
  let era := yy / 400
  let yoe := yy % 400
  let mp := if 2 < m then m - 3 else m + 9
  let doy := (153 * mp + 2) / 5 + d - 1
  let doe := yoe * 365 + yoe / 4 - yoe / 100 + doy
  ((era * 146097 + doe : Nat) : Int) - 719468

/-- Microseconds since the Unix epoch: the linear ordering-and-arithmetic key
of a Python `datetime` value. -/
def toEpochUs (t : PTimestamp) : Int :=
  daysFromCivil t.year t.month t.day * 86400000000 + (todUs t : Int)

/-- Reads a digit field of at most `maxLen` digits; returns its value, digit
count, and the remaining characters. -/
def fieldNat (maxLen : Nat) (cs : List Char) : Option (Nat × Nat × List Char) :=
  match takeDigits cs with
  | ([], _) => none
  | (ds, rest) => if ds.length ≤ maxLen then some (digitsToNat ds, ds.length, rest) else none

/-- Consumes one expected literal character. -/
def expectChar (u : Char) : List Char → Option (List Char)
  | c :: cs => if c = u then some cs else none
  | [] => none

/-- Models `datetime.datetime.strptime(s, "%Y-%m-%d %H:%M:%S.%f")`:
a 4-digit year, 1-2 digit month/day/hour/minute/second, 1-6 digit fraction
(right-padded to microseconds), literal separators, whole string consumed,
with `datetime`'s field-range and calendar validation. -/
def parseTimestamp? (s : String) : Option PTimestamp := do
  let (y, ly, r1) ← fieldNat 4 s.data
  let r2 ← expectChar '-' r1
  let (mo, _, r3) ← fieldNat 2 r2
  let r4 ← expectChar '-' r3
  let (d, _, r5) ← fieldNat 2 r4
  let r6 ← expectChar ' ' r5
  let (h, _, r7) ← fieldNat 2 r6
  let r8 ← expectChar ':' r7
  let (mi, _, r9) ← fieldNat 2 r8
  let r10 ← expectChar ':' r9
  let (se, _, r11) ← fieldNat 2 r10
  let r12 ← expectChar '.' r11
  let (f, lf, r13) ← fieldNat 6 r12
  if ly = 4 ∧ r13 = [] ∧ 1 ≤ y ∧ 1 ≤ mo ∧ mo ≤ 12 ∧ 1 ≤ d ∧ d ≤ daysInMonth y mo ∧
      h ≤ 23 ∧ mi ≤ 59 ∧ se ≤ 59 then
    some ⟨y, mo, d, h, mi, se, f * 10 ^ (6 - lf)⟩
  else none

example : parseFloat? "-5" = some (-5) := by decide
example : parseFloat? "10" = some 10 := by decide
example : parseInt? "abc" = none := by decide
example :
    parseTimestamp? "2024-01-02 09:31:00.000000" = some ⟨2024, 1, 2, 9, 31, 0, 0⟩ := by
  decide
example : daysFromCivil 2024 1 2 = 19724 := by decide

/-! ### DataCleaner.py -/

/-- A raw tick row as handed to `DataCleaner`: a (timestamp, price, size)
triple of strings, each possibly missing. -/
structure RawRow where
  timestamp : Option String
  price : Option String
  size : Option String
deriving DecidableEq, Repr

/-- `DataCleaner.is_valid_row`: missing-field check, price parses as a float,
price nonnegative, price within `[lower_threshold, upper_threshold]`,
timestamp parses via `strptime`, time of day within trading hours
(09:30:00 to 16:00:00, inclusive).  The checks run in this order with the
first failure rejecting the row; the size field is never examined beyond
presence. -/
def isValidRow (row : RawRow) (lowT highT : ℚ) : Bool :=
  match row.timestamp, row.price, row.size with
  | some ts, some ps, some _ =>
    match parseFloat? ps with
    | none => false
    | some p =>
      if p < 0 then false
      else if p < lowT ∨ highT < p then false
      else
        match parseTimestamp? ts with
        | none => false
        | some t => decide (tradingOpenUs ≤ todUs t ∧ todUs t ≤ tradingCloseUs)
  | _, _, _ => false

/-- `DataCleaner._clean_data_chunk`: for each row in order, skip invalid rows,
then coerce price with `float` and size with `int` (skipping on failure),
then append the raw row unless the identical triple was already seen in this
chunk.  `seen` is the chunk-local duplicate set. -/
def cleanChunk (lowT highT : ℚ) : List RawRow → List RawRow → List RawRow
  | [], _ => []
  | row :: rest, seen =>
    if isValidRow row lowT highT then
      match row.price.bind parseFloat?, row.size.bind parseInt? with
      | some _, some _ =>
        if row ∈ seen then cleanChunk lowT highT rest seen
        else row :: cleanChunk lowT highT rest (row :: seen)
      | _, _ => cleanChunk lowT highT rest seen
    else cleanChunk lowT highT rest seen

/-- The slice list `[data[i:i+cs] for i in range(0, len(data), cs)]` for a
positive step `cs`: `(len + cs - 1) / cs` slices of width `cs` starting at
`0, cs, 2·cs, …`. -/
def pySlices (cs : Nat) (data : List RawRow) : List (List RawRow) :=
  (List.range' 0 ((data.length + cs - 1) / cs) cs).map fun i => (data.drop i).take cs

/-- `DataCleaner._split_data_among_threads`: `chunk_size = len(data) // num_threads`,
then the slice comprehension with step `chunk_size`.  When `chunk_size` is `0`
(fewer rows than threads, in particular empty data, or zero threads) Python's
`range` raises `ValueError` / `ZeroDivisionError`, modelled as `none`. -/
def splitDataAmongThreads (numThreads : Nat) (data : List RawRow) : Option (List (List RawRow)) :=
  let cs := data.length / numThreads
  if cs = 0 then none else some (pySlices cs data)

/-- `DataCleaner.clean_data` with the thread interleaving resolved to chunk
order: thresholds `mean ± 2·stddev`, split into chunks, clean each chunk with
its own duplicate set, concatenate the per-chunk results. -/
def cleanData (mean stddev : ℚ) (numThreads : Nat) (data : List RawRow) :
    Option (List RawRow) :=
  (splitDataAmongThreads numThreads data).map fun chunks =>
    (chunks.map fun c => cleanChunk (mean - 2 * stddev) (mean + 2 * stddev) c []).flatten

/-- Convenience constructor for fully-present rows. -/
def mkRow (ts p sz : String) : RawRow := ⟨some ts, some p, some sz⟩

example :
    cleanData 11 5 1 [mkRow "2024-01-02 09:31:00.000000" "10" "5"] =
      some [mkRow "2024-01-02 09:31:00.000000" "10" "5"] := by with_unfolding_all decide
example : cleanData 11 5 1 [] = none := by with_unfolding_all decide
example :
    isValidRow (mkRow "2024-01-02 10:00:00.000000" "10" "abc") 1 21 = true := by
  with_unfolding_all decide
example :
    (splitDataAmongThreads 3 (List.replicate 10 (mkRow "x" "y" "z"))).map List.length =
      some 4 := by decide

/-! ### DataInterface.py: interval strings -/

/-- One optional regex component `(?:(\d+)u)?`: consume a digit run followed
by the literal unit `u`, or consume nothing.  (Backtracking inside the digit
run can never help, because a shorter run is still followed by a digit.) -/
def component (u : Char) (cs : List Char) : Option Nat × List Char :=
  match takeDigits cs with
  | ([], _) => (none, cs)
  | (ds, r :: rest) => if r = u then (some (digitsToNat ds), rest) else (none, cs)
  | (_ :: _, []) => (none, cs)

/-- The unit letters and second-multipliers of the interval regex
`^(?:(\d+)d)?(?:(\d+)h)?(?:(\d+)m)?(?:(\d+)s)?$`, in order. -/
def intervalUnits : List (Char × Nat) :=
  [('d', 86400), ('h', 3600), ('m', 60), ('s', 1)]

/-- Runs a sequence of optional components, accumulating the seconds value. -/
def runComps : List (Char × Nat) → List Char → Nat × List Char
  | [], cs => (0, cs)
  | (u, w) :: us, cs =>
    let p := component u cs
    let q := runComps us p.2
    ((p.1.getD 0) * w + q.1, q.2)

/-- `DataInterface.parse_time_interval` (with `validate_time_interval`):
match the four optional components in order against the whole string;
on a match build the `timedelta`, in microseconds; on a failed match the
code raises `ValueError`, modelled as `none`. -/
def parseTimeInterval (s : String) : Option Int :=
  let p := runComps intervalUnits s.data
  if p.2 = [] then some ((p.1 : Int) * 1000000) else none

example : parseTimeInterval "1h30m" = some 5400000000 := by decide
example : parseTimeInterval "" = some 0 := by decide
example : parseTimeInterval "xyz" = none := by decide
example : parseTimeInterval "2h" = some 7200000000 := by decide
example : parseTimeInterval "1m" = some 60000000 := by decide

/-! ### DataInterface.py: OHLCV aggregation -/

/-- One OHLCV bar as appended to `self.ohlcv_data`:
`[current_time, open, high, low, close, volume]`. -/
structure Bar where
  bucketStart : Int
  openP : ℚ
  highP : ℚ
  lowP : ℚ
  closeP : ℚ
  volume : ℚ
deriving DecidableEq, Repr

/-- The per-bucket accumulator of `_process_data_chunk`.  In the Python code
`high` starts at `-inf` and `low` at `+inf`; since `max(-inf, p) = p` and
`min(inf, p) = p`, the first matching trade overwrites them, which is what
the `openP = none` branch encodes. -/
structure BarAcc where
  openP : Option ℚ
  highP : ℚ
  lowP : ℚ
  closeP : ℚ
  vol : ℚ
deriving DecidableEq, Repr

/-- Accumulator state at the start of a bucket. -/
def initAcc : BarAcc := ⟨none, 0, 0, 0, 0⟩

/-- The body of the row scan for one row already inside the bucket. -/
def accUpd (a : BarAcc) (p sz : ℚ) : BarAcc :=
  match a.openP with
  | none => ⟨some p, p, p, p, a.vol + sz⟩
  | some o => ⟨some o, max a.highP p, min a.lowP p, p, a.vol + sz⟩

/-- One iteration of the row scan of `_process_data_chunk`: parse the trade
time with `strptime` (an unparsable timestamp raises, modelled `none`); if the
trade falls in `[lo, hi)`, parse price and size with `float` and fold them in. -/
def stepRow (lo hi : Int) (a : BarAcc) (row : RawRow) : Option BarAcc :=
  match row.timestamp.bind parseTimestamp? with
  | none => none
  | some t =>
    let tt := toEpochUs t
    if lo ≤ tt ∧ tt < hi then
      match row.price.bind parseFloat?, row.size.bind parseFloat? with
      | some p, some sz => some (accUpd a p sz)
      | _, _ => none
    else some a

/-- The full row scan of one bucket. -/
def scanRows (lo hi : Int) : List RawRow → BarAcc → Option BarAcc
  | [], a => some a
  | r :: rs, a =>
    match stepRow lo hi a r with
    | none => none
    | some a2 => scanRows lo hi rs a2

/-- The bar appended after a bucket scan, if any trade matched. -/
def barFromAcc (cur : Int) (a : BarAcc) : Option Bar :=
  a.openP.map fun o => ⟨cur, o, a.highP, a.lowP, a.closeP, a.vol⟩

/-- The `while current_time < end_time` loop of `_process_data_chunk`, with
explicit fuel.  Each iteration breaks if the bucket would overrun `endT`,
otherwise scans the whole chunk for trades in `[cur, cur + dt)`, appends a bar
if any matched, and advances by `dt`.  `none` means the loop did not complete
normally (it ran out of fuel, or a row failed to parse). -/
def processChunk (fuel : Nat) (chunk : List RawRow) (cur endT dt : Int)
    (acc : List Bar) : Option (List Bar) :=
  match fuel with
  | 0 => none
  | fuel + 1 =>
    if cur < endT then
      if endT < cur + dt then some acc
      else
        match scanRows cur (cur + dt) chunk initAcc with
        | none => none
        | some a =>
          processChunk fuel chunk (cur + dt) endT dt (acc ++ (barFromAcc cur a).toList)
    else some acc

/-- The chunking of `generate_ohlcv`: `chunk_size = len(data) // num_threads`,
slice `i` is `data[i*cs : (i+1)*cs]` except the last, which runs to the end. -/
def interfaceChunks (n : Nat) (data : List RawRow) : List (List RawRow) :=
  let cs := data.length / n
  (List.range n).map fun i =>
    (data.drop (i * cs)).take (if i = n - 1 then data.length - i * cs else cs)

/-- Possible outcomes of `generate_ohlcv`. -/
inductive AggResult where
  | invalidInterval : AggResult
  | windowTooShort : AggResult
  | abnormal : AggResult
  | bars : List Bar → AggResult
deriving DecidableEq, Repr

/-- `DataInterface.generate_ohlcv`: parse the interval (raising
`ValueError` on a bad format), reject windows shorter than the interval,
then split the data and run `_process_data_chunk` per worker, the shared
list resolved to chunk order.  `abnormal` covers a worker dying (unparsable
row or exhausted fuel) and `num_threads = 0` (Python `ZeroDivisionError`). -/
def generateOhlcv (fuel : Nat) (data : List RawRow) (numThreads : Nat)
    (startT endT : Int) (interval : String) : AggResult :=
  match parseTimeInterval interval with
  | none => .invalidInterval
  | some dt =>
    if endT - startT < dt then .windowTooShort
    else if numThreads = 0 then .abnormal
    else
      match (interfaceChunks numThreads data).mapM
          (fun c => processChunk fuel c startT endT dt []) with
      | none => .abnormal
      | some ls => .bars ls.flatten

/-! ### Concrete data for the aggregation examples -/

/-- First example trade: 2024-01-02 09:31:00, price 10, size 5. -/
def rowA : RawRow := mkRow "2024-01-02 09:31:00.000000" "10" "5"

/-- Second example trade: 2024-01-02 09:31:30, price 12, size 3. -/
def rowB : RawRow := mkRow "2024-01-02 09:31:30.000000" "12" "3"

/-- Epoch microseconds of 2024-01-02 09:31:00. -/
def t0931 : Int := 1704187860000000

/-- Epoch microseconds of 2024-01-02 09:32:00. -/
def t0932 : Int := 1704187920000000


/-! ### Specification-side view of one worker's bucket walk

These definitions transcribe the specification's description of §4.5 step 4:
per bucket `[start + k·dt, start + (k+1)·dt)` whose end does not exceed the
window end, over the worker's own chunk, a non-empty bucket yields one bar
with open = first matching price in chunk order, high = maximum price,
low = minimum price, close = last matching price, volume = sum of sizes. -/

/-- A fully parsed record: epoch-microsecond time, price, size. -/
structure PRow where
  t : Int
  p : ℚ
  sz : ℚ
deriving DecidableEq, Repr

/-- Eager parse of a whole row (timestamp, price, size as `float`s). -/
def parseRowFull? (row : RawRow) : Option PRow := do
  let ts ← row.timestamp
  let t ← parseTimestamp? ts
  let ps ← row.price
  let p ← parseFloat? ps
  let ss ← row.size
  let sz ← parseFloat? ss
  pure ⟨toEpochUs t, p, sz⟩

/-- Eager parse of a list of rows; `none` if any row fails. -/
def parseRows? : List RawRow → Option (List PRow)
  | [] => some []
  | r :: rs => do
    let pr ← parseRowFull? r
    let prs ← parseRows? rs
    pure (pr :: prs)

/-- Membership of a record in the half-open bucket `[lo, hi)`. -/
def inB (lo hi : Int) (r : PRow) : Bool := decide (lo ≤ r.t ∧ r.t < hi)

/-- `stepRow` at the parsed level. -/
def stepP (lo hi : Int) (a : BarAcc) (r : PRow) : BarAcc :=
  if inB lo hi r then accUpd a r.p r.sz else a

/-- The records of a chunk that fall in `[lo, hi)`, in chunk order. -/
def bucketRows (lo hi : Int) (prs : List PRow) : List PRow :=
  prs.filter (inB lo hi)

/-- The bar the specification prescribes for bucket `[lo, lo + dt)`:
`none` for an empty bucket, otherwise first/max/min/last/sum over the
matching records in chunk order. -/
def mkBar? (prs : List PRow) (lo dt : Int) : Option Bar :=
  match bucketRows lo (lo + dt) prs with
  | [] => none
  | r :: rs =>
    some ⟨lo, r.p, (rs.map PRow.p).foldl max r.p, (rs.map PRow.p).foldl min r.p,
      (rs.map PRow.p).getLastD r.p, r.sz + (rs.map PRow.sz).sum⟩

/-- The full bar sequence the specification prescribes for one worker,
walking `n` buckets from `cur` in steps of `dt`. -/
def specWorker (prs : List PRow) (dt : Int) : Int → Nat → List Bar
  | _, 0 => []
  | cur, n + 1 => (mkBar? prs cur dt).toList ++ specWorker prs dt (cur + dt) n

/-- Number of whole buckets of width `dt` between `s` and `e` (for `0 < dt`). -/
def numBuckets (s e dt : Int) : Nat := (e - s).toNat / dt.toNat

lemma stepRow_parsed {row : RawRow} {pr : PRow} (h : parseRowFull? row = some pr)
    (lo hi : Int) (a : BarAcc) : stepRow lo hi a row = some (stepP lo hi a pr) := by
  rcases row with ⟨ots, ops, osz⟩
  cases ots with
  | none => simp [parseRowFull?] at h
  | some ts =>
    cases hts : parseTimestamp? ts with
    | none => simp [parseRowFull?, hts] at h
    | some t =>
      cases ops with
      | none => simp [parseRowFull?, hts] at h
      | some ps =>
        cases hps : parseFloat? ps with
        | none => simp [parseRowFull?, hts, hps] at h
        | some p =>
          cases osz with
          | none => simp [parseRowFull?, hts, hps] at h
          | some ss =>
            cases hss : parseFloat? ss with
            | none => simp [parseRowFull?, hts, hps, hss] at h
            | some sz =>
              have hpr : pr = ⟨toEpochUs t, p, sz⟩ := by
                simp [parseRowFull?, hts, hps, hss] at h
                exact h.symm
              subst hpr
              by_cases hcond : lo ≤ toEpochUs t ∧ toEpochUs t < hi
              · simp [stepRow, hts, hps, hss, stepP, inB, hcond]
              · simp [stepRow, hts, hps, hss, stepP, inB, hcond]

lemma scanRows_parsed {rows : List RawRow} {prs : List PRow}
    (h : parseRows? rows = some prs) (lo hi : Int) :
    ∀ a, scanRows lo hi rows a = some (prs.foldl (stepP lo hi) a) := by
  induction rows generalizing prs with
  | nil =>
    intro a
    simp only [parseRows?, Option.some.injEq] at h
    subst h
    simp [scanRows]
  | cons r rs ih =>
    intro a
    cases hpr : parseRowFull? r with
    | none => simp [parseRows?, hpr] at h
    | some pr =>
      cases hrest : parseRows? rs with
      | none => simp [parseRows?, hpr, hrest] at h
      | some prs' =>
        simp only [parseRows?, hpr, hrest, Option.bind_eq_bind, Option.some_bind, pure,
          Option.some.injEq] at h
        subst h
        simp only [scanRows, stepRow_parsed hpr, List.foldl_cons]
        exact ih hrest _

lemma foldl_stepP (lo hi : Int) :
    ∀ (prs : List PRow) (a : BarAcc),
      prs.foldl (stepP lo hi) a = (bucketRows lo hi prs).foldl (fun a r => accUpd a r.p r.sz) a := by
  intro prs
  induction prs with
  | nil => intro a; simp [bucketRows]
  | cons r rs ih =>
    intro a
    by_cases hr : inB lo hi r
    · simp [bucketRows, List.filter_cons, hr, stepP, ih]
    · simp [bucketRows, List.filter_cons, hr, stepP, ih]

lemma foldl_accUpd_started :
    ∀ (rs : List PRow) (o h l c v : ℚ),
      rs.foldl (fun a r => accUpd a r.p r.sz) ⟨some o, h, l, c, v⟩ =
        ⟨some o, (rs.map PRow.p).foldl max h, (rs.map PRow.p).foldl min l,
          (rs.map PRow.p).getLastD c, v + (rs.map PRow.sz).sum⟩ := by
  intro rs
  induction rs with
  | nil => intro o h l c v; simp
  | cons r rs ih =>
    intro o h l c v
    have hstep : accUpd ⟨some o, h, l, c, v⟩ r.p r.sz =
        ⟨some o, max h r.p, min l r.p, r.p, v + r.sz⟩ := rfl
    rw [List.foldl_cons]
    show List.foldl (fun a r => accUpd a r.p r.sz) (accUpd ⟨some o, h, l, c, v⟩ r.p r.sz) rs = _
    rw [hstep, ih]
    simp only [List.map_cons, List.foldl_cons, List.getLastD_cons, List.sum_cons]
    rw [add_assoc]

lemma barFromAcc_foldl (prs : List PRow) (lo dt : Int) :
    barFromAcc lo ((bucketRows lo (lo + dt) prs).foldl (fun a r => accUpd a r.p r.sz) initAcc) =
      mkBar? prs lo dt := by
  cases hb : bucketRows lo (lo + dt) prs with
  | nil => simp [mkBar?, hb, initAcc, barFromAcc]
  | cons r rs =>
    simp only [mkBar?, hb, List.foldl_cons]
    have h1 : accUpd initAcc r.p r.sz = ⟨some r.p, r.p, r.p, r.p, 0 + r.sz⟩ := by
      simp [accUpd, initAcc]
    rw [h1, foldl_accUpd_started]
    simp [barFromAcc]

lemma numBuckets_eq_zero {cur e dt : Int} (hdt : 0 < dt) :
    numBuckets cur e dt = 0 ↔ e < cur + dt := by
  unfold numBuckets
  constructor
  · intro h0
    by_contra hlt
    push_neg at hlt
    have h1 : dt.toNat ≤ (e - cur).toNat := by omega
    have h2 : 0 < dt.toNat := by omega
    have := Nat.div_pos h1 h2
    omega
  · intro hlt
    exact Nat.div_eq_of_lt (by omega)

lemma numBuckets_succ {cur e dt : Int} (hdt : 0 < dt) (h : cur + dt ≤ e) :
    numBuckets (cur + dt) e dt + 1 = numBuckets cur e dt := by
  unfold numBuckets
  have h1 : (e - (cur + dt)).toNat = (e - cur).toNat - dt.toNat := by omega
  have h2 : 0 < dt.toNat := by omega
  have h3 : dt.toNat ≤ (e - cur).toNat := by omega
  rw [h1, ← Nat.div_eq_sub_div h2 h3]

lemma processChunk_go {rows : List RawRow} {prs : List PRow} {e dt : Int}
    (hdt : 0 < dt) (hp : parseRows? rows = some prs) :
    ∀ (n fuel : Nat) (cur : Int) (acc : List Bar), numBuckets cur e dt = n → n < fuel →
      processChunk fuel rows cur e dt acc = some (acc ++ specWorker prs dt cur n) := by
  intro n
  induction n generalizing e with
  | zero =>
    intro fuel cur acc hn hfuel
    obtain ⟨f, rfl⟩ : ∃ f, fuel = f + 1 := ⟨fuel - 1, by omega⟩
    rw [processChunk]
    by_cases hcur : cur < e
    · have hover : e < cur + dt := (numBuckets_eq_zero hdt).mp hn
      simp [hcur, hover, specWorker]
    · simp [hcur, specWorker]
  | succ n ih =>
    intro fuel cur acc hn hfuel
    obtain ⟨f, rfl⟩ : ∃ f, fuel = f + 1 := ⟨fuel - 1, by omega⟩
    have hfit : cur + dt ≤ e := by
      by_contra hover
      push_neg at hover
      have := (numBuckets_eq_zero hdt).mpr hover
      omega
    have hcur : cur < e := by omega
    have hscan : scanRows cur (cur + dt) rows initAcc =
        some ((bucketRows cur (cur + dt) prs).foldl (fun a r => accUpd a r.p r.sz) initAcc) := by
      rw [scanRows_parsed hp, foldl_stepP]
    rw [processChunk]
    simp only [hcur, if_true, if_pos, not_lt.mpr hfit, if_neg (not_lt.mpr hfit), hscan]
    rw [barFromAcc_foldl]
    have hnext : numBuckets (cur + dt) e dt = n := by
      have := numBuckets_succ hdt hfit
      omega
    rw [ih f (cur + dt) (acc ++ (mkBar? prs cur dt).toList) hnext (by omega)]
    rw [specWorker, List.append_assoc]
    simp

/-! ### Concrete evaluations for the worked aggregation example -/

/-- Parsed form of `rowA`. -/
def prowA : PRow := ⟨1704187860000000, 10, 5⟩

/-- Parsed form of `rowB`. -/
def prowB : PRow := ⟨1704187890000000, 12, 3⟩

lemma parseTsA : parseTimestamp? "2024-01-02 09:31:00.000000" = some ⟨2024, 1, 2, 9, 31, 0, 0⟩ := by
  decide

lemma parseTsB : parseTimestamp? "2024-01-02 09:31:30.000000" = some ⟨2024, 1, 2, 9, 31, 30, 0⟩ := by
  decide

lemma epochA : toEpochUs ⟨2024, 1, 2, 9, 31, 0, 0⟩ = 1704187860000000 := by decide

lemma epochB : toEpochUs ⟨2024, 1, 2, 9, 31, 30, 0⟩ = 1704187890000000 := by decide

lemma parseRowA : parseRowFull? rowA = some prowA := by
  simp [parseRowFull?, rowA, mkRow, parseTsA, epochA, prowA,
    show parseFloat? "10" = some 10 by decide, show parseFloat? "5" = some 5 by decide]

lemma parseRowB : parseRowFull? rowB = some prowB := by
  simp [parseRowFull?, rowB, mkRow, parseTsB, epochB, prowB,
    show parseFloat? "12" = some 12 by decide, show parseFloat? "3" = some 3 by decide]

lemma parseRowsAB : parseRows? [rowA, rowB] = some [prowA, prowB] := by
  simp [parseRows?, parseRowA, parseRowB]

lemma parseRowsA : parseRows? [rowA] = some [prowA] := by
  simp [parseRows?, parseRowA]

lemma parseRowsB : parseRows? [rowB] = some [prowB] := by
  simp [parseRows?, parseRowB]

lemma bucketAB : bucketRows t0931 (t0931 + 60000000) [prowA, prowB] = [prowA, prowB] := by
  decide

lemma mkBarAB : mkBar? [prowA, prowB] t0931 60000000 = some ⟨t0931, 10, 12, 10, 12, 8⟩ := by
  simp only [mkBar?, bucketAB]
  norm_num [prowA, prowB, max_def, min_def]

lemma specAB : specWorker [prowA, prowB] 60000000 t0931 1 = [⟨t0931, 10, 12, 10, 12, 8⟩] := by
  rw [specWorker, specWorker, mkBarAB]
  rfl

/-- C2: with a single worker, aggregating the two example records over the one
one-minute bucket `[09:31, 09:32)` yields exactly the bar
open 10, high 12, low 10, close 12, volume 8; and in general each worker's
bucket walk, on a chunk whose rows all parse, emits exactly the bars the
specification prescribes: one bar per non-empty half-open bucket
`[start + k·dt, start + (k+1)·dt)` whose end does not exceed the window end,
with open the first matching price in chunk order, high the maximum, low the
minimum, close the last, and volume the sum of sizes. -/
theorem c2_worker_bucket_walk :
    processChunk 2 [rowA, rowB] t0931 t0932 60000000 [] =
      some [⟨t0931, 10, 12, 10, 12, 8⟩] ∧
    ∀ (chunk : List RawRow) (prs : List PRow) (s e dt : Int) (fuel : Nat),
      0 < dt → parseRows? chunk = some prs → numBuckets s e dt < fuel →
      processChunk fuel chunk s e dt [] = some (specWorker prs dt s (numBuckets s e dt)) := by
  constructor
  · rw [processChunk_go (by decide) parseRowsAB 1 2 t0931 [] (by decide) (by omega)]
    rw [List.nil_append, specAB]
  · intro chunk prs s e dt fuel hdt hp hfuel
    simpa using processChunk_go hdt hp (numBuckets s e dt) fuel s [] rfl hfuel

/-- Witness for C2: the general statement applied to the worked example. -/
theorem c2_worker_bucket_walk_witness :
    ((0 : Int) < 60000000 ∧ parseRows? [rowA, rowB] = some [prowA, prowB] ∧
      numBuckets t0931 t0932 60000000 < 2) ∧
    processChunk 2 [rowA, rowB] t0931 t0932 60000000 [] =
      some (specWorker [prowA, prowB] 60000000 t0931 (numBuckets t0931 t0932 60000000)) :=
  ⟨⟨by decide, parseRowsAB, by decide⟩,
    c2_worker_bucket_walk.2 [rowA, rowB] [prowA, prowB] t0931 t0932 60000000 2
      (by decide) parseRowsAB (by decide)⟩

/-! ### The cleaning invariant -/

lemma isValidRow_true_iff {row : RawRow} {lowT highT : ℚ} :
    isValidRow row lowT highT = true ↔
      ∃ ts ps ss p t, row.timestamp = some ts ∧ row.price = some ps ∧ row.size = some ss ∧
        parseFloat? ps = some p ∧ 0 ≤ p ∧ lowT ≤ p ∧ p ≤ highT ∧
        parseTimestamp? ts = some t ∧ tradingOpenUs ≤ todUs t ∧ todUs t ≤ tradingCloseUs := by
  rcases row with ⟨ots, ops, osz⟩
  constructor
  · intro h
    rcases ots with _ | ts
    · simp [isValidRow] at h
    rcases ops with _ | ps
    · simp [isValidRow] at h
    rcases osz with _ | ss
    · simp [isValidRow] at h
    cases hps : parseFloat? ps with
    | none => rw [isValidRow] at h; simp [hps] at h
    | some p =>
      rw [isValidRow] at h
      simp only [hps] at h
      by_cases hneg : p < 0
      · simp [hneg] at h
      by_cases hrange : p < lowT ∨ highT < p
      · simp [hneg, hrange] at h
      cases hts : parseTimestamp? ts with
      | none => simp [hneg, hrange, hts] at h
      | some t =>
        simp only [hneg, if_false, hrange, hts, decide_eq_true_eq] at h
        push_neg at hrange
        exact ⟨ts, ps, ss, p, t, rfl, rfl, rfl, hps, not_lt.mp hneg, hrange.1, hrange.2,
          hts, h.1, h.2⟩
  · rintro ⟨ts, ps, ss, p, t, h1, h2, h3, hps, hnn, hlo, hhi, hts, hop, hcl⟩
    subst h1; subst h2; subst h3
    simp only [isValidRow, hps, hts]
    rw [if_neg (not_lt.mpr hnn), if_neg (by push_neg; exact ⟨hlo, hhi⟩)]
    exact decide_eq_true ⟨hop, hcl⟩

lemma mem_cleanChunk {lowT highT : ℚ} :
    ∀ (rows seen : List RawRow) (row : RawRow), row ∈ cleanChunk lowT highT rows seen →
      row ∈ rows ∧ isValidRow row lowT highT = true ∧
      (row.price.bind parseFloat?).isSome ∧ (row.size.bind parseInt?).isSome := by
  intro rows
  induction rows with
  | nil => intro seen row h; simp [cleanChunk] at h
  | cons r rs ih =>
    intro seen row h
    rw [cleanChunk] at h
    by_cases hv : isValidRow r lowT highT
    · rw [if_pos hv] at h
      cases hp : r.price.bind parseFloat? with
      | none =>
        simp only [hp] at h
        have := ih seen row h
        exact ⟨List.mem_cons_of_mem _ this.1, this.2⟩
      | some p =>
        cases hsz : r.size.bind parseInt? with
        | none =>
          simp only [hp, hsz] at h
          have := ih seen row h
          exact ⟨List.mem_cons_of_mem _ this.1, this.2⟩
        | some sz =>
          simp only [hp, hsz] at h
          by_cases hseen : r ∈ seen
          · rw [if_pos hseen] at h
            have := ih seen row h
            exact ⟨List.mem_cons_of_mem _ this.1, this.2⟩
          · rw [if_neg hseen] at h
            rcases List.mem_cons.mp h with rfl | h2
            · exact ⟨List.mem_cons_self _ _, hv, by simp [hp], by simp [hsz]⟩
            · have := ih _ row h2
              exact ⟨List.mem_cons_of_mem _ this.1, this.2⟩
    · rw [if_neg hv] at h
      have := ih seen row h
      exact ⟨List.mem_cons_of_mem _ this.1, this.2⟩

lemma mem_cleanData {mean stddev : ℚ} {wc : Nat} {data out : List RawRow}
    (hout : cleanData mean stddev wc data = some out) :
    ∀ row ∈ out, (∃ chunk, chunk ∈ (splitDataAmongThreads wc data).getD [] ∧ row ∈ chunk) ∧
      isValidRow row (mean - 2 * stddev) (mean + 2 * stddev) = true ∧
      (row.price.bind parseFloat?).isSome ∧ (row.size.bind parseInt?).isSome := by
  intro row hrow
  unfold cleanData at hout
  cases hsplit : splitDataAmongThreads wc data with
  | none => rw [hsplit] at hout; simp at hout
  | some chunks =>
    rw [hsplit, Option.map_some'] at hout
    injection hout with hout
    subst hout
    rcases List.mem_flatten.mp hrow with ⟨l, hl, hrl⟩
    rcases List.mem_map.mp hl with ⟨chunk, hchunk, rfl⟩
    have := mem_cleanChunk chunk [] row hrl
    exact ⟨⟨chunk, by simp [hsplit, hchunk], this.1⟩, this.2⟩
